import Mathlib

/-!
Verification of the identity-resolution engine of `Scrubber_pro.py`.

The program resolves free-text payer records against a master registry:
`normalize` and `standardize_id` canonicalize text, `load_lookup_data`
builds lookup tables over the registry, a tiered matching loop resolves
each target row (exact id, exact alias name, substring containment), and
a result-assignment block copies absent master columns onto the row and
stamps `Payer Std?` / `Search Method`.

Modelling conventions:
  - a dataframe row is an ordered association list from column name to
    string value (pandas `Series` label assignment updates in place or
    appends at the end, which `alistInsert` reproduces; `dict` assignment
    in the index tables behaves the same way);
  - all cell values are strings (the source reads with `dtype=str` and
    `fillna(..)`), so missing cells are the empty string; the separate
    `Option String` wrappers model `None`/NaN inputs to the two
    normalization helpers;
  - Python `str.strip` / `str.isdigit` / `str.upper` / `str.lower` are
    modelled on their ASCII behaviour, which is total on every string the
    claims quantify over;
  - `list(set(..))` materializes an unordered set; its iteration order is
    passed in explicitly as a function argument `so` so that theorems can
    quantify over (or exhibit) particular orders.
-/

namespace Scrubber

/-! ## Character helpers -/

/-- ASCII whitespace, as stripped by Python `str.strip`. -/
def isSpaceB (c : Char) : Bool :=
  c == ' ' || c == '\t' || c == '\n' || c == '\r' || c == '\x0b' || c == '\x0c'

/-- ASCII decimal digit, as accepted by Python `str.isdigit`. -/
def isDigitB (c : Char) : Bool :=
  decide (48 ≤ c.toNat ∧ c.toNat ≤ 57)

/-- ASCII letter or digit: the characters kept by the regex `[^a-zA-Z0-9]`
substitution in `normalize`. -/
def isAlnumB (c : Char) : Bool :=
  decide ((48 ≤ c.toNat ∧ c.toNat ≤ 57) ∨ (65 ≤ c.toNat ∧ c.toNat ≤ 90) ∨
          (97 ≤ c.toNat ∧ c.toNat ≤ 122))

/-- ASCII upper-casing of one character, as `str.upper` acts on ASCII. -/
def upperB (c : Char) : Char :=
  if 97 ≤ c.toNat ∧ c.toNat ≤ 122 then Char.ofNat (c.toNat - 32) else c

/-! ## List-of-characters helpers -/

/-- Strip `isSpaceB` characters from both ends, as Python `str.strip`. -/
def trimB (l : List Char) : List Char :=
  ((l.dropWhile isSpaceB).reverse.dropWhile isSpaceB).reverse

/-- Characters before the first occurrence of `ch`: Python `s.split(ch)[0]`. -/
def beforeChar (ch : Char) (l : List Char) : List Char :=
  l.takeWhile (fun c => !(c == ch))

/-- Python `s.split(",")` on the character level (keeps empty pieces). -/
def splitCommaChars : List Char → List (List Char)
  | [] => [[]]
  | c :: rest =>
    match splitCommaChars rest with
    | [] => [[c]]
    | h :: t => if c = ',' then [] :: h :: t else (c :: h) :: t

/-- Bool-valued list-prefix test. -/
def isPrefixB : List Char → List Char → Bool
  | [], _ => true
  | _ :: _, [] => false
  | a :: as, b :: bs => a == b && isPrefixB as bs

/-- Bool-valued contiguous-sublist test: Python `needle in hay` on strings. -/
def isInfixB (p : List Char) : List Char → Bool
  | [] => p.isEmpty
  | l@(_ :: rest) => isPrefixB p l || isInfixB p rest

/-- Python `str.isdigit`: nonempty and all decimal digits. -/
def isDigitsB (l : List Char) : Bool :=
  !l.isEmpty && l.all isDigitB

/-! ## The two normalization functions of the source -/

/-- ASCII lower-casing of one character (body of `str.lower`). -/
def lowerC (c : Char) : Char :=
  if 65 ≤ c.toNat ∧ c.toNat ≤ 90 then Char.ofNat (c.toNat + 32) else c

/-- Source `normalize`: remove every character that is not an ASCII letter
or digit, then lower-case (`re.sub` followed by `str.lower`; `str.lower`
acts character-wise on the ASCII-only remnant). -/
def normalize (s : String) : String :=
  String.mk ((s.data.filter isAlnumB).map lowerC)

/-- Source `normalize` on a possibly-missing value: `pd.isna` maps to `""`. -/
def normalizeOpt : Option String → String
  | none => ""
  | some s => normalize s

/-- Source `standardize_id`: empty for blank input; otherwise
`str(val).split(".")[0].strip().split("-")[0]`, zero-padded to five
characters when the remnant is all-digit and shorter than five. -/
def standardize_id (s : String) : String :=
  if trimB s.data = [] then ""
  else
    let v := beforeChar '-' (trimB (beforeChar '.' s.data))
    if isDigitsB v && decide (v.length < 5) then
      String.mk (List.replicate (5 - v.length) '0' ++ v)
    else String.mk v

/-- Source `standardize_id` on a possibly-missing value (`pd.isna` to `""`). -/
def standardizeIdOpt : Option String → String
  | none => ""
  | some s => standardize_id s

/-- Spec-following definition for claim C3, written from the words of the
claim: first trim the input, then keep the part before the first dot, then
the part before the first hyphen, then pad. It differs from the source,
which trims between the two splits. -/
def standardizeIdClaim (s : String) : String :=
  let t := trimB s.data
  if t = [] then ""
  else
    let v := beforeChar '-' (beforeChar '.' t)
    if isDigitsB v && decide (v.length < 5) then
      String.mk (List.replicate (5 - v.length) '0' ++ v)
    else String.mk v

/-! ## Rows and association-list primitives -/

/-- One dataframe row: an ordered column-name/value association list. -/
abbrev Row := List (String × String)

/-- Lookup of the value stored under a key. -/
def alistGet {α : Type} : List (String × α) → String → Option α
  | [], _ => none
  | (k, v) :: rest, key => if k = key then some v else alistGet rest key

/-- Assignment `m[key] = v` of a Python dict or pandas Series: update an
existing entry in place, otherwise append at the end. -/
def alistInsert {α : Type} : List (String × α) → String → α → List (String × α)
  | [], key, v => [(key, v)]
  | (k, w) :: rest, key, v =>
    if k = key then (k, v) :: rest else (k, w) :: alistInsert rest key v

/-- Python `row.get(col, default)`. -/
def rowGetD (r : Row) (c d : String) : String :=
  (alistGet r c).getD d

/-! ## Master index construction (`load_lookup_data`) -/

/-- Cleanest name available for a master row:
`row.get("Clean_payer Name") if row.get("Clean_payer Name") else
row.get("Payer Name", "")`. -/
def rawNameOf (r : Row) : String :=
  let c := rowGetD r "Clean_payer Name" ""
  if c = "" then rowGetD r "Payer Name" "" else c

/-- Standardized id key of a master row. -/
def pidOf (r : Row) : String :=
  standardize_id (rowGetD r "Payer ID" "")

/-- Normalized name key of a master row. -/
def nameKeyOf (r : Row) : String :=
  normalize (rawNameOf r)

/-- The lookup structures built by `load_lookup_data`. -/
structure MasterIndex where
  id_map : List (String × Row)
  name_map : List (String × Row)
  names_list : List (String × Row)

/-- The `if pid: id_map[pid] = data` statement of the master loop. -/
def withId (idx : MasterIndex) (r : Row) : MasterIndex :=
  if pidOf r = "" then idx
  else { idx with id_map := alistInsert idx.id_map (pidOf r) r }

/-- The `if pname: name_map[pname] = data; master_names_list.append(..)`
statement of the master loop. -/
def withName (idx : MasterIndex) (r : Row) : MasterIndex :=
  if nameKeyOf r = "" then idx
  else { idx with name_map := alistInsert idx.name_map (nameKeyOf r) r,
                  names_list := idx.names_list ++ [(nameKeyOf r, r)] }

/-- One iteration of the master loop. -/
def buildStep (idx : MasterIndex) (r : Row) : MasterIndex :=
  withName (withId idx r) r

/-- The master loop over the remaining registry rows. -/
def buildAux (idx : MasterIndex) : List Row → MasterIndex
  | [] => idx
  | r :: rs => buildAux (buildStep idx r) rs

/-- Source `load_lookup_data`: fold the registry, in order, into the
three lookup structures, starting from empty ones. -/
def load_lookup_data (df : List Row) : MasterIndex :=
  buildAux ⟨[], [], []⟩ df

/-! ## The matching logic of the scrub loop -/

/-- Python `needle in hay` substring containment. -/
def substrB (needle hay : String) : Bool :=
  isInfixB needle.data hay.data

/-- Python `s.upper()` (ASCII action). -/
def strUpper (s : String) : String :=
  String.mk (s.data.map upperB)

/-- Python `s.split(",")`. -/
def splitComma (s : String) : List String :=
  (splitCommaChars s.data).map String.mk

/-- Tier 2 of the source: first alias that is an exact `name_map` key. -/
def exactNameSearch (idx : MasterIndex) : List String → Option (Row × String)
  | [] => none
  | n :: ns =>
    match alistGet idx.name_map n with
    | some d => some (d, "Exact Name: " ++ n)
    | none => exactNameSearch idx ns

/-- Inner loop of tier 3: scan `names_list` in registry order for the
first containment hit of one alias, in either direction. -/
def containScan (n : String) : List (String × Row) → Option (Row × String)
  | [] => none
  | (mn, md) :: rest =>
    if substrB n mn then some (md, "Partial: \x27" ++ n ++ "\x27 in Master")
    else if substrB mn n then some (md, "Partial: Master in \x27" ++ n ++ "\x27")
    else containScan n rest

/-- Tier 3 of the source: aliases in order, skipping aliases shorter than
four characters, stopping at the first containment hit. -/
def containSearch (idx : MasterIndex) : List String → Option (Row × String)
  | [] => none
  | n :: ns =>
    if n.length < 4 then containSearch idx ns
    else
      match containScan n idx.names_list with
      | some res => some res
      | none => containSearch idx ns

/-- The full matching logic for one target row, given its standardized id
and its alias list (in set-iteration order): tier 1 exact id, then tier 2
exact name, then tier 3 containment, else unresolved. -/
def matchRow (idx : MasterIndex) (tid : String) (names : List String) :
    Option Row × String :=
  match alistGet idx.id_map tid with
  | some d => (some d, "ID Match")
  | none =>
    match exactNameSearch idx names with
    | some (d, m) => (some d, m)
    | none =>
      match containSearch idx names with
      | some (d, m) => (some d, m)
      | none => (none, "Unresolved")

/-! ## Per-row preparation, merging and the scrub loop -/

/-- Columns whose upper-cased header contains `NAME`. -/
def nameColsOf (tCols : List String) : List String :=
  tCols.filter (fun c => substrB "NAME" (strUpper c))

/-- All normalized comma-separated pieces of all name-bearing cells of a
row, in column order, duplicates and empties included. -/
def rawAliases (tCols : List String) (row : Row) : List String :=
  ((nameColsOf tCols).map (fun c => (splitComma (rowGetD row c "")).map normalize)).flatten

/-- The alias list actually iterated: empties removed, then
`list(set(..))` materialized by the supplied set-iteration order `so`. -/
def aliasesOf (tCols : List String) (so : List String → List String) (row : Row) :
    List String :=
  so ((rawAliases tCols row).filter (fun s => !(s == "")))

/-- Standardized id of a target row. -/
def targetId (row : Row) : String :=
  standardize_id (rowGetD row "Payer ID" "")

/-- Match outcome of one target row. -/
def rowResult (tCols : List String) (idx : MasterIndex)
    (so : List String → List String) (row : Row) : Option Row × String :=
  matchRow idx (targetId row) (aliasesOf tCols so row)

/-- The copy loop of the result-assignment block: for every master column
absent from the target column set, copy the matched record value. -/
def copyCols (tCols mCols : List String) (md : Row) (row : Row) : Row :=
  mCols.foldl (fun r c => if c ∈ tCols then r else alistInsert r c (rowGetD md c "")) row

/-- The result-assignment block: copy absent master columns when matched,
then stamp `Payer Std?` and `Search Method`. -/
def applyMatch (mCols tCols : List String) (row : Row) (res : Option Row × String) :
    Row :=
  let r1 :=
    match res.1 with
    | some md => copyCols tCols mCols md row
    | none => row
  let r2 := alistInsert r1 "Payer Std?" (if res.1.isSome then "Yes" else "No")
  alistInsert r2 "Search Method" res.2

/-- Processing of one target row. -/
def scrubRow (mCols tCols : List String) (idx : MasterIndex)
    (so : List String → List String) (row : Row) : Row :=
  applyMatch mCols tCols row (rowResult tCols idx so row)

/-- The scrub loop: rows in input order, each appended to `results`. -/
def scrubFile (mCols tCols : List String) (idx : MasterIndex)
    (so : List String → List String) (rows : List Row) : List Row :=
  rows.foldl (fun acc r => acc ++ [scrubRow mCols tCols idx so r]) []

/-! ## Two concrete materializations of `list(set(..))` -/

/-- Duplicate removal keeping first occurrences (seen-set accumulator). -/
def dedupAux (seen : List String) : List String → List String
  | [] => []
  | x :: xs => if x ∈ seen then dedupAux seen xs else x :: dedupAux (x :: seen) xs

/-- One possible iteration order of `list(set(..))`: first occurrences. -/
def dedupFirst (l : List String) : List String :=
  dedupAux [] l

/-- Another possible iteration order of the same set: reversed. -/
def dedupRev (l : List String) : List String :=
  (dedupAux [] l).reverse

/-- Left-biased choice on options (used to state lookup lemmas). -/
def optOr {α : Type} : Option α → Option α → Option α
  | some x, _ => some x
  | none, b => b

/-! ## Concrete fixtures used by witnesses and counterexamples -/

/-- Master row with raw id `1` and name `Alpha Co`. -/
def masterRowA : Row := [("Payer ID", "1"), ("Payer Name", "Alpha Co")]

/-- Master row with raw id `2` and name `Beta Co`. -/
def masterRowB : Row := [("Payer ID", "2"), ("Payer Name", "Beta Co")]

/-- Column set of the two-row master registry. -/
def masterCols : List String := ["Payer ID", "Payer Name"]

/-- Index built from the two-row master registry. -/
def masterIdx : MasterIndex := load_lookup_data [masterRowA, masterRowB]

/-- Column set of a one-column target file. -/
def targetCols : List String := ["Payer Name"]

/-- Target row whose single name cell carries two aliases. -/
def targetRowAB : Row := [("Payer Name", "Alpha Co, Beta Co")]

/-- Target row whose alias matches nothing in the two-row registry. -/
def unresolvedRow : Row := [("Payer Name", "Zzz Qqq")]

/-- First of two master rows sharing standardized id `00001`. -/
def dupRow1 : Row := [("Payer ID", "00001"), ("Payer Name", "First Co")]

/-- Second of two master rows sharing standardized id `00001`. -/
def dupRow2 : Row := [("Payer ID", "00001"), ("Payer Name", "Second Co")]

/-- Master row whose name normalizes to the empty string. -/
def blankNameRow : Row := [("Payer ID", "7"), ("Payer Name", "- -")]

/-- Target row that already carries a `Payer Std?` column. -/
def stampRow : Row := [("Payer Std?", "KEEP")]

/-! ## Helper lemmas on characters and normalization -/

theorem charToNat_ofNat_valid (n : Nat) (h : n < 55296) : (Char.ofNat n).toNat = n := by
  rw [Char.ofNat, dif_pos (Or.inl h)]
  simp [Char.ofNatAux, Char.toNat, UInt32.toNat]

theorem lowerC_fix (c : Char) (h : ¬ (65 ≤ c.toNat ∧ c.toNat ≤ 90)) : lowerC c = c := by
  rw [lowerC, if_neg h]

theorem lowerC_alnum (c : Char) (h : isAlnumB c = true) :
    isAlnumB (lowerC c) = true ∧ lowerC (lowerC c) = lowerC c := by
  rw [isAlnumB, decide_eq_true_iff] at h
  rcases h with h | h | h
  · rw [lowerC_fix c (by omega)]
    exact ⟨by rw [isAlnumB, decide_eq_true_iff]; omega, by rw [lowerC_fix c (by omega)]⟩
  · have ht : (lowerC c).toNat = c.toNat + 32 := by
      rw [lowerC, if_pos h]
      exact charToNat_ofNat_valid _ (by omega)
    refine ⟨by rw [isAlnumB, decide_eq_true_iff]; omega, ?_⟩
    rw [lowerC_fix (lowerC c) (by omega)]
  · rw [lowerC_fix c (by omega)]
    exact ⟨by rw [isAlnumB, decide_eq_true_iff]; omega, by rw [lowerC_fix c (by omega)]⟩

theorem normChars_idem (l : List Char) :
    (((l.filter isAlnumB).map lowerC).filter isAlnumB).map lowerC =
      (l.filter isAlnumB).map lowerC := by
  induction l with
  | nil => rfl
  | cons c l ih =>
    by_cases h : isAlnumB c = true
    · obtain ⟨h1, h2⟩ := lowerC_alnum c h
      simp only [List.filter_cons, h, if_pos, List.map_cons, h1, h2, ih]
    · simp only [List.filter_cons, h, Bool.false_eq_true, if_false]
      exact ih

theorem alistGet_insert {α : Type} (m : List (String × α)) (k k' : String) (v : α) :
    alistGet (alistInsert m k v) k' = if k = k' then some v else alistGet m k' := by
  induction m with
  | nil => by_cases h : k = k' <;> simp [alistInsert, alistGet, h]
  | cons p rest ih =>
    obtain ⟨k0, v0⟩ := p
    simp only [alistInsert]
    by_cases h0 : k0 = k
    · rw [if_pos h0]
      subst h0
      by_cases h1 : k0 = k' <;> simp [alistGet, h1]
    · rw [if_neg h0]
      by_cases h1 : k0 = k'
      · subst h1
        have hne : ¬ k = k0 := fun e => h0 e.symm
        simp [alistGet, hne]
      · simp [alistGet, h1, ih]

theorem optOr_none {α : Type} (a : Option α) : optOr a none = a := by
  cases a <;> rfl

theorem optOr_assoc {α : Type} (a b c : Option α) :
    optOr (optOr a b) c = optOr a (optOr b c) := by
  cases a <;> rfl

theorem find?_append {α : Type} (p : α → Bool) (l1 l2 : List α) :
    (l1 ++ l2).find? p = optOr (l1.find? p) (l2.find? p) := by
  induction l1 with
  | nil => simp [optOr]
  | cons a l ih =>
    cases h : p a with
    | true =>
      rw [List.cons_append, List.find?_cons_of_pos (l ++ l2) h,
        List.find?_cons_of_pos l h]
      rfl
    | false =>
      have hn : ¬ p a = true := by simp [h]
      rw [List.cons_append, List.find?_cons_of_neg (l ++ l2) hn,
        List.find?_cons_of_neg l hn]
      exact ih

theorem withId_id_map (idx : MasterIndex) (r : Row) :
    (withId idx r).id_map =
      if pidOf r = "" then idx.id_map else alistInsert idx.id_map (pidOf r) r := by
  rw [withId]; split <;> rfl

theorem withId_name_map (idx : MasterIndex) (r : Row) :
    (withId idx r).name_map = idx.name_map := by
  rw [withId]; split <;> rfl

theorem withId_names_list (idx : MasterIndex) (r : Row) :
    (withId idx r).names_list = idx.names_list := by
  rw [withId]; split <;> rfl

theorem withName_id_map (idx : MasterIndex) (r : Row) :
    (withName idx r).id_map = idx.id_map := by
  rw [withName]; split <;> rfl

theorem withName_name_map (idx : MasterIndex) (r : Row) :
    (withName idx r).name_map =
      if nameKeyOf r = "" then idx.name_map
      else alistInsert idx.name_map (nameKeyOf r) r := by
  rw [withName]; split <;> rfl

theorem withName_names_list (idx : MasterIndex) (r : Row) :
    (withName idx r).names_list =
      idx.names_list ++ (if nameKeyOf r = "" then [] else [(nameKeyOf r, r)]) := by
  rw [withName]; split <;> simp

theorem buildAux_id_get (df : List Row) (idx : MasterIndex) (k : String) (hk : ¬ k = "") :
    alistGet (buildAux idx df).id_map k =
      optOr (df.reverse.find? (fun r => pidOf r == k)) (alistGet idx.id_map k) := by
  induction df generalizing idx with
  | nil => simp [buildAux, optOr]
  | cons r rs ih =>
    rw [buildAux, ih]
    have hstep : alistGet (buildStep idx r).id_map k =
        optOr (if pidOf r == k then some r else none) (alistGet idx.id_map k) := by
      rw [buildStep, withName_id_map, withId_id_map]
      by_cases hp : pidOf r = ""
      · have hb : (pidOf r == k) = false := by
          rw [beq_eq_false_iff_ne, hp]
          exact fun e => hk e.symm
        rw [if_pos hp, hb]
        rfl
      · rw [if_neg hp, alistGet_insert]
        by_cases he : pidOf r = k
        · simp [he, optOr]
        · have hb : (pidOf r == k) = false := by rw [beq_eq_false_iff_ne]; exact he
          simp [he, hb, optOr]
    rw [hstep, List.reverse_cons, find?_append, optOr_assoc]
    congr 1
    cases hb : (pidOf r == k) <;> simp [List.find?, hb]

theorem buildAux_name_get (df : List Row) (idx : MasterIndex) (k : String) (hk : ¬ k = "") :
    alistGet (buildAux idx df).name_map k =
      optOr (df.reverse.find? (fun r => nameKeyOf r == k)) (alistGet idx.name_map k) := by
  induction df generalizing idx with
  | nil => simp [buildAux, optOr]
  | cons r rs ih =>
    rw [buildAux, ih]
    have hstep : alistGet (buildStep idx r).name_map k =
        optOr (if nameKeyOf r == k then some r else none) (alistGet idx.name_map k) := by
      rw [buildStep, withName_name_map, withId_name_map]
      by_cases hp : nameKeyOf r = ""
      · have hb : (nameKeyOf r == k) = false := by
          rw [beq_eq_false_iff_ne, hp]
          exact fun e => hk e.symm
        rw [if_pos hp, hb]
        rfl
      · rw [if_neg hp, alistGet_insert]
        by_cases he : nameKeyOf r = k
        · simp [he, optOr]
        · have hb : (nameKeyOf r == k) = false := by rw [beq_eq_false_iff_ne]; exact he
          simp [he, hb, optOr]
    rw [hstep, List.reverse_cons, find?_append, optOr_assoc]
    congr 1
    cases hb : (nameKeyOf r == k) <;> simp [List.find?, hb]

theorem buildAux_names_list (df : List Row) (idx : MasterIndex) :
    (buildAux idx df).names_list =
      idx.names_list ++
        df.filterMap (fun r => if nameKeyOf r = "" then none else some (nameKeyOf r, r)) := by
  induction df generalizing idx with
  | nil => simp [buildAux]
  | cons r rs ih =>
    rw [buildAux, ih, buildStep, withName_names_list, withId_names_list,
      List.filterMap_cons]
    by_cases h : nameKeyOf r = "" <;> simp [h]

/-! ## Claim theorems -/

/-- Claim C9: `normalize` maps a missing value to the empty string, keeps
exactly the ASCII letters and digits lower-cased, is idempotent, and
identifies `Tri-West, Inc.` with `TRIWEST INC`. -/
theorem C9_normalize_props :
    normalizeOpt none = "" ∧
    (∀ s, (normalize s).data = (s.data.filter isAlnumB).map lowerC) ∧
    (∀ s, normalize (normalize s) = normalize s) ∧
    normalize "Tri-West, Inc." = normalize "TRIWEST INC" := by
  refine ⟨rfl, fun s => rfl, fun s => ?_, by decide⟩
  show String.mk _ = String.mk _
  exact congrArg String.mk (normChars_idem s.data)

/-- Claim C3 counterexample: the claim describes trimming the whole input
before the dot split, but the source trims between the dot split and the
hyphen split; on the input `123 .0` the source pads to `00123` while the
claimed pipeline leaves `123 ` (trailing blank, not all-digit) unchanged. -/
theorem C3_counterexample :
    standardize_id "123 .0" = "00123" ∧ standardizeIdClaim "123 .0" = "123 " ∧
    ¬ standardize_id "123 .0" = standardizeIdClaim "123 .0" := by
  refine ⟨by decide, by decide, by decide⟩

/-- Claim C3, amended: blank input yields the empty string; otherwise the
part before the first dot is taken, that part is trimmed, then the part
before the first hyphen is taken, and the remnant is left-padded with `0`
to five characters exactly when it is all-digit and shorter than five;
the five concrete examples of the claim all hold, and additionally
`standardize_id "123 .0" = "00123"`. -/
theorem C3_standardize_id_spec :
    (∀ s, trimB s.data = [] → standardize_id s = "") ∧
    (∀ s, ¬ trimB s.data = [] →
      standardize_id s =
        (let v := beforeChar '-' (trimB (beforeChar '.' s.data))
         if isDigitsB v && decide (v.length < 5) then
           String.mk (List.replicate (5 - v.length) '0' ++ v)
         else String.mk v)) ∧
    standardizeIdOpt none = "" ∧
    standardize_id "1111.0" = "01111" ∧ standardize_id "37077-NOCD" = "37077" ∧
    standardize_id "" = "" ∧ standardize_id "ABC12" = "ABC12" ∧
    standardize_id "123456" = "123456" ∧ standardize_id "123 .0" = "00123" := by
  refine ⟨fun s h => ?_, fun s h => ?_, rfl, by decide, by decide, by decide,
    by decide, by decide, by decide⟩
  · rw [standardize_id, if_pos h]
  · rw [standardize_id, if_neg h]

/-- Witness for the amended claim C3: both hypotheses discharged on
concrete inputs (a blank string and `1111.0`). -/
theorem C3_standardize_id_spec_witness :
    standardize_id " " = "" ∧
    standardize_id "1111.0" =
      (let v := beforeChar '-' (trimB (beforeChar '.' (String.data "1111.0")))
       if isDigitsB v && decide (v.length < 5) then
         String.mk (List.replicate (5 - v.length) '0' ++ v)
       else String.mk v) :=
  ⟨C3_standardize_id_spec.1 " " (by decide), C3_standardize_id_spec.2.1 "1111.0" (by decide)⟩

/-- Claim C4: aliases whose normalized form is shorter than four
characters are skipped by the containment tier: the tier computes the
same result as on the alias list with all short aliases removed, so a
short alias can never produce a partial match. -/
theorem C4_short_alias_skipped (idx : MasterIndex) (names : List String) :
    containSearch idx names =
      containSearch idx (names.filter (fun n => decide (4 ≤ n.length))) := by
  induction names with
  | nil => rfl
  | cons n ns ih =>
    rw [List.filter_cons]
    by_cases h : n.length < 4
    · have hd : decide (4 ≤ n.length) = false := by simp; omega
      rw [hd]
      simp only [Bool.false_eq_true, if_false]
      rw [containSearch, if_pos h]
      exact ih
    · have hd : decide (4 ≤ n.length) = true := by simp; omega
      rw [hd]
      simp only [if_true]
      rw [containSearch, containSearch, if_neg h, if_neg h]
      cases hs : containScan n idx.names_list with
      | none => simpa using ih
      | some res => rfl

/-- Claim C1 counterexample: with two master records sharing standardized
id `00001`, the id table retains the SECOND record, not the first: the
dict assignment `id_map[pid] = data` of the source overwrites the earlier
entry, so later duplicates win. -/
theorem C1_counterexample :
    alistGet (load_lookup_data [dupRow1, dupRow2]).id_map "00001" = some dupRow2 ∧
    ¬ dupRow2 = dupRow1 := by
  refine ⟨by decide, by decide⟩

/-- Claim C1, amended: when several registry records map to the same
non-empty lookup key, the index retains the LAST record encountered in
registry order (earlier duplicates are overwritten): lookup in the id
table and in the name table returns the last registry record bearing
that key. -/
theorem C1_last_record_wins (df : List Row) (k : String) (hk : ¬ k = "") :
    alistGet (load_lookup_data df).id_map k =
      df.reverse.find? (fun r => pidOf r == k) ∧
    alistGet (load_lookup_data df).name_map k =
      df.reverse.find? (fun r => nameKeyOf r == k) := by
  constructor
  · rw [load_lookup_data, buildAux_id_get df _ k hk]
    simp [alistGet, optOr_none]
  · rw [load_lookup_data, buildAux_name_get df _ k hk]
    simp [alistGet, optOr_none]

/-- Witness for the amended claim C1 at the concrete duplicate registry. -/
theorem C1_last_record_wins_witness :
    alistGet (load_lookup_data [dupRow1, dupRow2]).id_map "00001" =
      ([dupRow1, dupRow2] : List Row).reverse.find? (fun r => pidOf r == "00001") :=
  (C1_last_record_wins [dupRow1, dupRow2] "00001" (by decide)).1

/-- Claim C6 counterexample: a one-record registry whose name normalizes
to the empty string contributes nothing to `names_list`, so not every
master record contributes to it. -/
theorem C6_counterexample :
    (load_lookup_data [blankNameRow]).names_list = [] ∧
    ¬ ([blankNameRow] : List Row) = [] := by
  refine ⟨by decide, by decide⟩

/-- Claim C6, amended: `names_list` is the ordered sequence of
(normalized name, record) pairs in registry order, keeping duplicates,
with exactly one entry for every record whose normalized name is
non-empty (records with an empty normalized name are skipped, as they
are in the exact-match maps). -/
theorem C6_names_list_spec (df : List Row) :
    (load_lookup_data df).names_list =
      df.filterMap (fun r => if nameKeyOf r = "" then none else some (nameKeyOf r, r)) := by
  rw [load_lookup_data, buildAux_names_list]
  rfl

theorem copyCols_cons (tCols : List String) (c : String) (cs : List String)
    (md row : Row) :
    copyCols tCols (c :: cs) md row =
      copyCols tCols cs md (if c ∈ tCols then row else alistInsert row c (rowGetD md c "")) :=
  rfl

theorem copyCols_preserved (tCols mCols : List String) (md row : Row) (col : String)
    (h : col ∈ tCols) :
    alistGet (copyCols tCols mCols md row) col = alistGet row col := by
  induction mCols generalizing row with
  | nil => rfl
  | cons c cs ih =>
    rw [copyCols_cons]
    by_cases hc : c ∈ tCols
    · rw [if_pos hc, ih]
    · rw [if_neg hc, ih, alistGet_insert, if_neg (fun e => hc (by rw [e]; exact h))]

theorem copyCols_value (tCols mCols : List String) (md row : Row) (col : String)
    (h : ¬ col ∈ tCols) :
    alistGet (copyCols tCols mCols md row) col =
      if col ∈ mCols then some (rowGetD md col "") else alistGet row col := by
  induction mCols generalizing row with
  | nil => simp [copyCols]
  | cons c cs ih =>
    rw [copyCols_cons]
    by_cases hc : c = col
    · subst hc
      rw [if_neg h, ih]
      by_cases hm : c ∈ cs
      · simp [hm]
      · simp [hm, alistGet_insert]
    · have hcol : ¬ col = c := fun e => hc e.symm
      by_cases ht : c ∈ tCols
      · rw [if_pos ht, ih]
        simp [List.mem_cons, hcol]
      · rw [if_neg ht, ih, alistGet_insert, if_neg hc]
        simp [List.mem_cons, hcol]

theorem applyMatch_stamps (mCols tCols : List String) (row : Row)
    (res : Option Row × String) :
    alistGet (applyMatch mCols tCols row res) "Payer Std?" =
      some (if res.1.isSome then "Yes" else "No") ∧
    alistGet (applyMatch mCols tCols row res) "Search Method" = some res.2 := by
  simp only [applyMatch]
  constructor
  · rw [alistGet_insert, if_neg (by decide), alistGet_insert, if_pos rfl]
  · rw [alistGet_insert, if_pos rfl]

theorem applyMatch_other (mCols tCols : List String) (row : Row)
    (res : Option Row × String) (col : String)
    (h2 : ¬ col = "Payer Std?") (h3 : ¬ col = "Search Method") :
    alistGet (applyMatch mCols tCols row res) col =
      (match res.1 with
       | some md => alistGet (copyCols tCols mCols md row) col
       | none => alistGet row col) := by
  simp only [applyMatch]
  rw [alistGet_insert, if_neg (fun e => h3 e.symm), alistGet_insert,
    if_neg (fun e => h2 e.symm)]
  obtain ⟨o, meth⟩ := res
  cases o <;> rfl

theorem matchRow_none (idx : MasterIndex) (tid : String) (names : List String)
    (h : (matchRow idx tid names).1 = none) :
    matchRow idx tid names = (none, "Unresolved") := by
  rcases h1 : alistGet idx.id_map tid with _ | d
  · rcases h2 : exactNameSearch idx names with _ | p
    · rcases h3 : containSearch idx names with _ | p
      · simp only [matchRow, h1, h2, h3]
      · obtain ⟨d, m⟩ := p
        simp [matchRow, h1, h2, h3] at h
    · obtain ⟨d, m⟩ := p
      simp [matchRow, h1, h2] at h
  · simp [matchRow, h1] at h

theorem foldl_append_map {α β : Type} (f : α → β) (l : List α) (acc : List β) :
    l.foldl (fun a r => a ++ [f r]) acc = acc ++ l.map f := by
  induction l generalizing acc with
  | nil => simp
  | cons x xs ih =>
    rw [List.foldl_cons, ih, List.map_cons, List.append_assoc]
    rfl

theorem scrubFile_eq_map (mCols tCols : List String) (idx : MasterIndex)
    (so : List String → List String) (rows : List Row) :
    scrubFile mCols tCols idx so rows = rows.map (scrubRow mCols tCols idx so) := by
  rw [scrubFile, foldl_append_map]
  rfl

/-- Claim C2: tiers are evaluated in strict priority order with the first
hit winning: an exact id hit is returned whatever the alias list says
(in particular for an empty alias list), an exact alias-name hit is
returned whenever the id misses, and the containment tier is consulted
only when both the id and every exact alias lookup miss. -/
theorem C2_tier_priority (idx : MasterIndex) (tid : String) (names : List String) :
    (∀ d, alistGet idx.id_map tid = some d →
      matchRow idx tid names = (some d, "ID Match")) ∧
    (alistGet idx.id_map tid = none →
      ∀ d m, exactNameSearch idx names = some (d, m) →
        matchRow idx tid names = (some d, m)) ∧
    (alistGet idx.id_map tid = none → exactNameSearch idx names = none →
      ∀ d m, containSearch idx names = some (d, m) →
        matchRow idx tid names = (some d, m)) := by
  refine ⟨fun d h => ?_, fun h1 d m h2 => ?_, fun h1 h2 d m h3 => ?_⟩
  · simp [matchRow, h]
  · simp [matchRow, h1, h2]
  · simp [matchRow, h1, h2, h3]

/-- Witness for claim C2: all three tiers exercised on the two-row
registry; the id tier wins over a name that would match a different
record. -/
theorem C2_tier_priority_witness :
    matchRow masterIdx "00001" ["betaco"] = (some masterRowA, "ID Match") ∧
    matchRow masterIdx "" ["betaco"] = (some masterRowB, "Exact Name: betaco") ∧
    matchRow masterIdx "" ["alphacorp"] =
      (some masterRowA, "Partial: Master in \x27alphacorp\x27") :=
  ⟨(C2_tier_priority masterIdx "00001" ["betaco"]).1 masterRowA (by decide),
   (C2_tier_priority masterIdx "" ["betaco"]).2.1 (by decide) masterRowB
     "Exact Name: betaco" (by decide),
   (C2_tier_priority masterIdx "" ["alphacorp"]).2.2 (by decide) (by decide) masterRowA
     "Partial: Master in \x27alphacorp\x27" (by decide)⟩

/-- Claim C5 counterexample: a target file that already carries a
`Payer Std?` column does NOT keep its original value: the stamp
assignment overwrites it (here from `KEEP` to `No`), so existing target
columns are not universally preserved. -/
theorem C5_counterexample :
    alistGet stampRow "Payer Std?" = some "KEEP" ∧
    ("Payer Std?" ∈ (["Payer Std?"] : List String)) ∧
    alistGet (scrubRow masterCols ["Payer Std?"] (load_lookup_data []) dedupFirst stampRow)
      "Payer Std?" = some "No" := by
  refine ⟨by decide, by decide, by decide⟩

/-- Claim C5, amended: the merger copies a master column value only onto
columns absent from the target column set, and every column already
present in the target keeps its original value, EXCEPT the two stamp
columns `Payer Std?` and `Search Method`, which are always rewritten. -/
theorem C5_merge_preserves (mCols tCols : List String) (row : Row)
    (res : Option Row × String) (col : String) :
    (col ∈ tCols → ¬ col = "Payer Std?" → ¬ col = "Search Method" →
      alistGet (applyMatch mCols tCols row res) col = alistGet row col) ∧
    (∀ md, res.1 = some md → ¬ col ∈ tCols → col ∈ mCols →
      ¬ col = "Payer Std?" → ¬ col = "Search Method" →
      alistGet (applyMatch mCols tCols row res) col = some (rowGetD md col "")) := by
  constructor
  · intro h1 h2 h3
    rw [applyMatch_other mCols tCols row res col h2 h3]
    rcases hres : res.1 with _ | md
    · exact rfl
    · exact copyCols_preserved tCols mCols md row col h1
  · intro md hres hn hm h2 h3
    rw [applyMatch_other mCols tCols row res col h2 h3, hres]
    exact (copyCols_value tCols mCols md row col hn).trans (if_pos hm)

/-- Witness for the amended claim C5: on a matched row, the existing
target column `Payer Name` is preserved and the absent master column
`Payer ID` is copied from the matched record. -/
theorem C5_merge_preserves_witness :
    alistGet (applyMatch masterCols targetCols [("Payer Name", "x")]
        (some masterRowA, "m")) "Payer Name" =
      alistGet [("Payer Name", "x")] "Payer Name" ∧
    alistGet (applyMatch masterCols targetCols [("Payer Name", "x")]
        (some masterRowA, "m")) "Payer ID" = some (rowGetD masterRowA "Payer ID" "") :=
  ⟨(C5_merge_preserves masterCols targetCols [("Payer Name", "x")]
      (some masterRowA, "m") "Payer Name").1 (by decide) (by decide) (by decide),
   (C5_merge_preserves masterCols targetCols [("Payer Name", "x")]
      (some masterRowA, "m") "Payer ID").2 masterRowA rfl (by decide) (by decide)
     (by decide) (by decide)⟩

/-- Claim C7 counterexample: the two alias orders are materializations of
the same alias set (they are permutations of one another), yet the scrub
of the same file against the same registry yields different outputs, so
run-to-run output identity fails when the unordered set enumerates its
aliases differently. -/
theorem C7_counterexample :
    (dedupFirst ["alphaco", "betaco"]).Perm (dedupRev ["alphaco", "betaco"]) ∧
    ¬ scrubFile masterCols targetCols masterIdx dedupFirst [targetRowAB] =
        scrubFile masterCols targetCols masterIdx dedupRev [targetRowAB] := by
  constructor
  · decide
  · decide

/-- Claim C7, amended: for a fixed registry, fixed target file and a
FIXED alias-set iteration order the engine is deterministic and processes
rows independently in input order (the output is the per-row scrub mapped
over the input rows); output identity across runs is only guaranteed up
to the iteration order of the alias set. -/
theorem C7_deterministic_given_order (mCols tCols : List String) (idx : MasterIndex)
    (so : List String → List String) (rows : List Row) :
    scrubFile mCols tCols idx so rows = rows.map (scrubRow mCols tCols idx so) :=
  scrubFile_eq_map mCols tCols idx so rows

/-- Claim C8: every input row yields exactly one output row (the output
length equals the input length), an unresolved row is stamped
`Payer Std? = No` and `Search Method = Unresolved`, and a matched row is
stamped `Payer Std? = Yes`. -/
theorem C8_output_stamps (mCols tCols : List String) (idx : MasterIndex)
    (so : List String → List String) (rows : List Row) (row : Row) :
    (scrubFile mCols tCols idx so rows).length = rows.length ∧
    ((rowResult tCols idx so row).1 = none →
      alistGet (scrubRow mCols tCols idx so row) "Payer Std?" = some "No" ∧
      alistGet (scrubRow mCols tCols idx so row) "Search Method" = some "Unresolved") ∧
    (∀ d, (rowResult tCols idx so row).1 = some d →
      alistGet (scrubRow mCols tCols idx so row) "Payer Std?" = some "Yes") := by
  refine ⟨?_, fun h => ⟨?_, ?_⟩, fun d h => ?_⟩
  · rw [scrubFile_eq_map, List.length_map]
  · have hs := (applyMatch_stamps mCols tCols row (rowResult tCols idx so row)).1
    rw [h] at hs
    unfold scrubRow
    simpa using hs
  · have hu : rowResult tCols idx so row = (none, "Unresolved") :=
      matchRow_none idx (targetId row) (aliasesOf tCols so row) h
    unfold scrubRow
    rw [hu]
    exact (applyMatch_stamps mCols tCols row (none, "Unresolved")).2
  · have hs := (applyMatch_stamps mCols tCols row (rowResult tCols idx so row)).1
    rw [h] at hs
    unfold scrubRow
    simpa using hs

/-- Witness for claim C8: an unresolved row receives both stamps, and a
matched row is stamped `Yes`. -/
theorem C8_output_stamps_witness :
    alistGet (scrubRow masterCols targetCols masterIdx dedupFirst unresolvedRow)
      "Payer Std?" = some "No" ∧
    alistGet (scrubRow masterCols targetCols masterIdx dedupFirst unresolvedRow)
      "Search Method" = some "Unresolved" ∧
    alistGet (scrubRow masterCols targetCols masterIdx dedupFirst targetRowAB)
      "Payer Std?" = some "Yes" :=
  ⟨((C8_output_stamps masterCols targetCols masterIdx dedupFirst [] unresolvedRow).2.1
      (by decide)).1,
   ((C8_output_stamps masterCols targetCols masterIdx dedupFirst [] unresolvedRow).2.1
      (by decide)).2,
   (C8_output_stamps masterCols targetCols masterIdx dedupFirst [] targetRowAB).2.2
     masterRowA (by decide)⟩

/-- Claim C10: the engine writes its freshly computed stamps into
`Payer Std?` and `Search Method` on every row, whatever those columns
held before: the final values are exactly the computed status and method,
so a target file that already carries those columns has them overwritten. -/
theorem C10_stamp_overwrite (mCols tCols : List String) (idx : MasterIndex)
    (so : List String → List String) (row : Row) :
    alistGet (scrubRow mCols tCols idx so row) "Payer Std?" =
      some (if (rowResult tCols idx so row).1.isSome then "Yes" else "No") ∧
    alistGet (scrubRow mCols tCols idx so row) "Search Method" =
      some (rowResult tCols idx so row).2 :=
  applyMatch_stamps mCols tCols row (rowResult tCols idx so row)

end Scrubber
